import Mathlib

/-!
Verification of the XIRR core of `src/main.py` (functions `_year_fractions`,
`xnpv`, `_dxnpv_dr` and the orchestrator `xirr`).

Modelling conventions:
* Python floats are modelled as rationals (`ℚ`); dates are modelled as integer
  day numbers (`ℤ`), faithful for the date-only inputs the loader produces,
  where `datetime` subtraction yields whole days.
* Python exceptions are modelled by `Except PyErr`; the constructors of
  `PyErr` name the exception classes the code can raise.
* The float power operator `**` (applied as `(1.0 + rate) ** t` with a
  positive base) is the single operation with no rational counterpart; the
  embedding takes it as an explicit parameter `pw : ℚ → ℚ → Exc ℚ` which may
  fail (Python `**` raises `OverflowError` on overflow) or return `0`
  (underflow), in which case the subsequent division raises
  `ZeroDivisionError` exactly as in Python.
* `scipy.optimize.newton` and `scipy.optimize.brentq` are external library
  routines, not code of this repository; the orchestrator is parameterised
  over them (`NewtonFn`, `BrentqFn`), and the contracts §4.3/§4.5 of the
  specification assigns to them appear as hypotheses where a claim needs
  them.
* The scan's `float("inf")` sentinel is modelled by `none : Option ℚ`; the
  comparison helpers below reproduce the IEEE semantics of the two tests the
  scan performs on possibly-infinite values (`== 0.0` and `prev * curr < 0`).
-/

/-- Python exception classes raised by the embedded code, plus `emptyInput`,
the tagged failure kind of §7 of the specification.  Modelled from the spec:
no `EmptyInput`-tagged error exists anywhere in `src/main.py`; the
constructor is present only so that statements can compare what the code
raises with what the specification announces. -/
inductive PyErr : Type
  | valueError
  | indexError
  | overflowError
  | zeroDivisionError
  | runtimeError
  | emptyInput
  deriving DecidableEq, Repr

/-- Result type of Python code that may raise. -/
abbrev Exc (α : Type) : Type := Except PyErr α

instance {α : Type} [DecidableEq α] : DecidableEq (Exc α) := fun a b =>
  match a, b with
  | .ok x, .ok y =>
    if h : x = y then .isTrue (by rw [h]) else .isFalse (by simp [h])
  | .error e, .error e' =>
    if h : e = e' then .isTrue (by rw [h]) else .isFalse (by simp [h])
  | .ok _, .error _ => .isFalse (by simp)
  | .error _, .ok _ => .isFalse (by simp)

/-- Embedding of `_year_fractions` (src/main.py:92-105).  The start date is
`cashflows[0][0]` — the *first* entry, not the minimum; `end` is the maximum
date; `times[i] = (date[i] - start).days / day_count`.  An empty list raises
`IndexError` at the subscript `cashflows[0]`; a zero `day_count` raises
`ZeroDivisionError` at the first division. -/
def _year_fractions (cashflows : List (ℤ × ℚ)) (day_count : ℚ) :
    Exc (List ℚ × List ℚ × ℤ × ℤ) :=
  match cashflows with
  | [] => .error .indexError
  | (d0, _) :: _ =>
    if day_count = 0 then .error .zeroDivisionError
    else
      let endd : ℤ := (cashflows.map Prod.fst).foldl max d0
      let runtime : ℤ := endd - d0
      let times : List ℚ := cashflows.map (fun p => ((p.1 - d0 : ℤ) : ℚ) / day_count)
      let amounts : List ℚ := cashflows.map Prod.snd
      .ok (times, amounts, runtime, endd)

/-- Embedding of `xnpv` (src/main.py:108-119): raise `ValueError` when
`rate <= -1.0`, otherwise sum `a / ((1.0 + rate) ** t)` over
`zip(times, amounts)` left to right, where a power failure propagates and a
zero power raises `ZeroDivisionError` at the division. -/
def xnpv (pw : ℚ → ℚ → Exc ℚ) (rate : ℚ) (times amounts : List ℚ) : Exc ℚ :=
  if rate ≤ -1 then .error .valueError
  else
    (times.zip amounts).foldlM
      (fun acc ta => do
        let d ← pw (1 + rate) ta.1
        if d = 0 then Except.error .zeroDivisionError
        else pure (acc + ta.2 / d))
      (0 : ℚ)

/-- Embedding of `_dxnpv_dr` (src/main.py:122-128): raise `ValueError` when
`rate <= -1.0`, otherwise sum `-t * a / ((1.0 + rate) ** (t + 1.0))`. -/
def _dxnpv_dr (pw : ℚ → ℚ → Exc ℚ) (rate : ℚ) (times amounts : List ℚ) : Exc ℚ :=
  if rate ≤ -1 then .error .valueError
  else
    (times.zip amounts).foldlM
      (fun acc ta => do
        let d ← pw (1 + rate) (ta.1 + 1)
        if d = 0 then Except.error .zeroDivisionError
        else pure (acc + (-ta.1 * ta.2 / d)))
      (0 : ℚ)

/-- Evaluation with the scan's sentinel (src/main.py:176-186): a raising
valuation is recorded as `float("inf")`, modelled by `none`. -/
def evalOrInf (f : ℚ → Exc ℚ) (r : ℚ) : Option ℚ :=
  match f r with
  | .ok v => some v
  | .error _ => none

/-- The scan's test `v == 0.0` on a possibly-infinite float (`inf == 0.0` is
`False`). -/
def fvalIsZero : Option ℚ → Bool
  | some v => decide (v = 0)
  | none => false

/-- The scan's test `prev * curr < 0.0` on possibly-infinite floats, with the
IEEE outcomes: `inf * b < 0` iff `b < 0` (and `inf * 0 = nan`, `nan < 0` is
`False`, which coincides with `0 < 0`), symmetrically for the right factor,
and `inf * inf = inf` is not negative. -/
def fvalProdNeg : Option ℚ → Option ℚ → Bool
  | some a, some b => decide (a * b < 0)
  | none, some b => decide (b < 0)
  | some a, none => decide (a < 0)
  | none, none => false

/-- Scan window lower bound (src/main.py:171). -/
def scanMin : ℚ := -999999/1000000

/-- Scan window upper bound (src/main.py:172). -/
def scanMax : ℚ := 10

/-- Number of scan steps (src/main.py:173). -/
def nSteps : ℕ := 200

/-- Scan step width (src/main.py:174). -/
def scanStep : ℚ := (scanMax - scanMin) / (nSteps : ℚ)

/-- The k-th scan sample point `scan_min + k * step`. -/
def specSample (k : ℕ) : ℚ := scanMin + (k : ℚ) * scanStep

/-- The `for _ in range(n_steps)` loop of the scan (src/main.py:182-197),
with the loop state `(prev_r, prev_f, r)` made explicit and the remaining
iteration count as fuel. -/
def scanLoop (f : ℚ → Exc ℚ) : ℕ → ℚ → Option ℚ → ℚ → Option (ℚ × ℚ)
  | 0, _, _, _ => none
  | n + 1, prev_r, prev_f, r =>
    let curr_f := evalOrInf f r
    if fvalIsZero prev_f then some (prev_r, prev_r)
    else if fvalIsZero curr_f then some (r, r)
    else if fvalProdNeg prev_f curr_f then some (prev_r, r)
    else scanLoop f n r curr_f (r + scanStep)

/-- The whole bracket scan of `xirr` (src/main.py:170-197): evaluate at
`scan_min`, then loop `n_steps` times advancing by `step`. -/
def scanBracket (f : ℚ → Exc ℚ) : Option (ℚ × ℚ) :=
  scanLoop f nSteps scanMin (evalOrInf f scanMin) (scanMin + scanStep)

/-- Interface of `scipy.optimize.newton` as called at src/main.py:163:
arguments `func`, `fprime`, `x0`, `tol`, `maxiter`; may raise. -/
abbrev NewtonFn : Type :=
  (ℚ → Exc ℚ) → (ℚ → Exc ℚ) → ℚ → ℚ → ℕ → Exc ℚ

/-- Interface of `scipy.optimize.brentq` as called at src/main.py:206:
arguments `f`, `low`, `high`, `xtol`; may raise. -/
abbrev BrentqFn : Type :=
  (ℚ → Exc ℚ) → ℚ → ℚ → ℚ → Exc ℚ

/-- The exception classes the Newton stage catches (src/main.py:166):
`(RuntimeError, OverflowError, ValueError)`. -/
def catchableNewton : PyErr → Bool
  | .runtimeError => true
  | .overflowError => true
  | .valueError => true
  | _ => false

/-- The tail of `xirr` after a bracket was computed (src/main.py:199-209):
`None` without a bracket; a degenerate bracket is returned directly; else
`brentq` runs inside `try/except Exception` so any failure yields `None`. -/
def brentqStage (brentq : BrentqFn) (f : ℚ → Exc ℚ) (tol : ℚ) :
    Option (ℚ × ℚ) → Option ℚ
  | none => none
  | some (low, high) =>
    if low = high then some low
    else
      match brentq f low high tol with
      | .ok irr => some irr
      | .error _ => none

/-- The fallback chain of `xirr` (src/main.py:170-209): scan, then the
bracketed stage.  The `try/except` blocks catch every exception, so the
fallback never raises. -/
def scanAndSolve (brentq : BrentqFn) (f : ℚ → Exc ℚ) (tol : ℚ) : Option ℚ :=
  brentqStage brentq f tol (scanBracket f)

/-- Spec-side (§4.4): a possibly-failed valuation counts as strictly
positive, since the sentinel is conceptually `+∞`. -/
def fvalPos : Option ℚ → Bool
  | some v => decide (0 < v)
  | none => true

/-- Spec-side (§4.4): a possibly-failed valuation is strictly negative only
when it is an actual negative value. -/
def fvalNeg : Option ℚ → Bool
  | some v => decide (v < 0)
  | none => false

/-- Spec-side (§4.4): two sample valuations have strictly opposite signs. -/
def specOppositeSigns (x y : Option ℚ) : Bool :=
  (fvalPos x && fvalNeg y) || (fvalNeg x && fvalPos y)

/-- Spec-side (§4.4): the 201 sample points of the sweep, the k-th being
`scan_min + k * step`. -/
def specSamples : List ℚ := (List.range (nSteps + 1)).map specSample

/-- Spec-side (§4.4): walk the samples left to right carrying the previous
sample; stop at the first sample whose valuation is exactly zero (degenerate
bracket) or the first consecutive pair with strictly opposite signs. -/
def specAux (f : ℚ → Exc ℚ) : ℚ → List ℚ → Option (ℚ × ℚ)
  | _, [] => none
  | rprev, r :: rest =>
    if fvalIsZero (evalOrInf f r) then some (r, r)
    else if specOppositeSigns (evalOrInf f rprev) (evalOrInf f r) then some (rprev, r)
    else specAux f r rest

/-- Spec-side (§4.4): the whole sweep; the first sample may itself already be
an exact zero. -/
def specScan (f : ℚ → Exc ℚ) : Option (ℚ × ℚ) :=
  match specSamples with
  | [] => none
  | r0 :: rest =>
    if fvalIsZero (evalOrInf f r0) then some (r0, r0)
    else specAux f r0 rest

/-- Embedding of the orchestrator `xirr` (src/main.py:131-209), parameterised
over the float power `pw` and the scipy routines `newton` and `brentq`.
`Except.ok none` models `return None`, `Except.ok (some r)` a returned rate,
`Except.error e` an uncaught exception.  The Newton stage catches only
`(RuntimeError, OverflowError, ValueError)`; a converged rate is returned
only when `irr > -1.0`, otherwise control falls to the scan. -/
def xirr (pw : ℚ → ℚ → Exc ℚ) (newton : NewtonFn) (brentq : BrentqFn)
    (cashflows : List (ℤ × ℚ)) (guess tol : ℚ) (maxiter : ℕ)
    (day_count : ℚ) : Exc (Option ℚ) := do
  let (times, amounts, _, _) ← _year_fractions cashflows day_count
  if !(amounts.any fun a => decide (0 < a)) || !(amounts.any fun a => decide (a < 0)) then
    pure none
  else
    let f := fun r => xnpv pw r times amounts
    let df := fun r => _dxnpv_dr pw r times amounts
    match newton f df guess tol maxiter with
    | .ok irr =>
      if -1 < irr then pure (some irr)
      else pure (scanAndSolve brentq f tol)
    | .error e =>
      if catchableNewton e then pure (scanAndSolve brentq f tol)
      else .error e

lemma scanStep_pos : 0 < scanStep := by norm_num [scanStep, scanMax, scanMin, nSteps]

lemma specSample_zero : specSample 0 = scanMin := by
  simp [specSample]

lemma specSample_succ (k : ℕ) : specSample (k + 1) = specSample k + scanStep := by
  simp only [specSample]
  push_cast
  ring

lemma specSample_lt_succ (k : ℕ) : specSample k < specSample (k + 1) := by
  rw [specSample_succ]
  linarith [scanStep_pos]

lemma scanMin_le_specSample (k : ℕ) : scanMin ≤ specSample k := by
  have h : (0 : ℚ) ≤ (k : ℚ) * scanStep :=
    mul_nonneg (Nat.cast_nonneg k) (le_of_lt scanStep_pos)
  simp only [specSample]
  linarith

lemma neg_one_lt_scanMin : (-1 : ℚ) < scanMin := by norm_num [scanMin]

lemma fvalProdNeg_eq_specOppositeSigns (x y : Option ℚ) :
    fvalProdNeg x y = specOppositeSigns x y := by
  cases x with
  | none =>
    cases y with
    | none => rfl
    | some b =>
      simp only [fvalProdNeg, specOppositeSigns, fvalPos, fvalNeg, Bool.true_and,
        Bool.false_and, Bool.or_false]
  | some a =>
    cases y with
    | none =>
      simp only [fvalProdNeg, specOppositeSigns, fvalPos, fvalNeg, Bool.and_false,
        Bool.and_true, Bool.false_or]
    | some b =>
      simp only [fvalProdNeg, specOppositeSigns, fvalPos, fvalNeg]
      rcases lt_trichotomy (a * b) 0 with h | h | h
      · rw [decide_eq_true h]
        rcases mul_neg_iff.mp h with ⟨ha, hb⟩ | ⟨ha, hb⟩
        · simp [decide_eq_true ha, decide_eq_true hb]
        · simp [decide_eq_true ha, decide_eq_true hb]
      · have ha := mul_eq_zero.mp h
        rw [decide_eq_false (by rw [h]; exact lt_irrefl 0)]
        rcases ha with ha | hb
        · subst ha
          simp
        · subst hb
          simp
      · rw [decide_eq_false (by exact asymm h)]
        rcases mul_pos_iff.mp h with ⟨ha, hb⟩ | ⟨ha, hb⟩
        · simp [decide_eq_false (asymm ha), decide_eq_false (asymm hb),
            decide_eq_true ha, decide_eq_true hb]
        · simp [decide_eq_false (not_lt_of_lt ha), decide_eq_false (not_lt_of_lt hb),
            decide_eq_true ha, decide_eq_true hb]

lemma range_map_sample_succ (n i : ℕ) :
    (List.range (n + 1)).map (fun j => specSample (i + j)) =
      specSample i :: (List.range n).map (fun j => specSample (i + 1 + j)) := by
  rw [List.range_succ_eq_map, List.map_cons, List.map_map]
  congr 1
  apply List.map_congr_left
  intro a _
  simp only [Function.comp_apply]
  congr 1
  omega

lemma scanLoop_eq_specAux (f : ℚ → Exc ℚ) :
    ∀ (n k : ℕ), fvalIsZero (evalOrInf f (specSample k)) = false →
      scanLoop f n (specSample k) (evalOrInf f (specSample k)) (specSample (k + 1)) =
        specAux f (specSample k) ((List.range n).map (fun j => specSample (k + 1 + j))) := by
  intro n
  induction n with
  | zero => intro k _; rfl
  | succ n ih =>
    intro k hk
    rw [range_map_sample_succ]
    show (if fvalIsZero (evalOrInf f (specSample k)) then _
      else if fvalIsZero (evalOrInf f (specSample (k + 1))) then _
      else if fvalProdNeg (evalOrInf f (specSample k)) (evalOrInf f (specSample (k + 1))) then _
      else scanLoop f n (specSample (k + 1)) (evalOrInf f (specSample (k + 1)))
        (specSample (k + 1) + scanStep)) = _
    rw [hk]
    simp only [Bool.false_eq_true, if_false, specAux,
      fvalProdNeg_eq_specOppositeSigns]
    by_cases h1 : fvalIsZero (evalOrInf f (specSample (k + 1))) = true
    · rw [h1]
      simp
    · rw [Bool.not_eq_true] at h1
      rw [h1]
      simp only [Bool.false_eq_true, if_false]
      by_cases h2 : specOppositeSigns (evalOrInf f (specSample k))
          (evalOrInf f (specSample (k + 1))) = true
      · rw [h2]
        simp
      · rw [Bool.not_eq_true] at h2
        rw [h2]
        simp only [Bool.false_eq_true, if_false]
        rw [← specSample_succ (k + 1)]
        exact ih (k + 1) h1

lemma specSamples_eq_cons :
    specSamples = specSample 0 :: (List.range nSteps).map (fun j => specSample (0 + 1 + j)) := by
  have h : specSamples = (List.range (nSteps + 1)).map (fun j => specSample (0 + j)) := by
    simp [specSamples]
  rw [h, range_map_sample_succ]

lemma scanBracket_eq_specScan (f : ℚ → Exc ℚ) : scanBracket f = specScan f := by
  rw [specScan, specSamples_eq_cons]
  by_cases h0 : fvalIsZero (evalOrInf f (specSample 0)) = true
  · rw [scanBracket]
    show (if fvalIsZero (evalOrInf f scanMin) then some (scanMin, scanMin)
      else if fvalIsZero (evalOrInf f (scanMin + scanStep)) then _
      else if fvalProdNeg (evalOrInf f scanMin) (evalOrInf f (scanMin + scanStep)) then _
      else _) = _
    rw [specSample_zero] at h0
    rw [h0]
    simp [specSample_zero, h0]
  · rw [Bool.not_eq_true] at h0
    simp only [h0, Bool.false_eq_true, if_false]
    have hstart : scanBracket f =
        scanLoop f nSteps (specSample 0) (evalOrInf f (specSample 0)) (specSample (0 + 1)) := by
      rw [scanBracket, specSample_zero, ← specSample_zero, specSample_succ, specSample_zero]
    rw [hstart, scanLoop_eq_specAux f nSteps 0 h0]

lemma specAux_sound (f : ℚ → Exc ℚ) :
    ∀ (l : List ℚ) (pr a b : ℚ), List.Chain (· < ·) pr l →
      specAux f pr l = some (a, b) →
      a ∈ pr :: l ∧ b ∈ l ∧
        ((a = b ∧ evalOrInf f a = some 0) ∨
          (a < b ∧ specOppositeSigns (evalOrInf f a) (evalOrInf f b) = true)) := by
  intro l
  induction l with
  | nil => intro pr a b _ h; exact absurd h (by simp [specAux])
  | cons r rest ih =>
    intro pr a b hchain h
    rcases List.chain_cons.mp hchain with ⟨hlt, hchain'⟩
    rw [specAux] at h
    by_cases h1 : fvalIsZero (evalOrInf f r) = true
    · rw [h1] at h
      simp only [if_true, Option.some.injEq, Prod.mk.injEq] at h
      obtain ⟨ha, hb⟩ := h
      subst ha
      subst hb
      refine ⟨List.mem_cons_of_mem _ (List.mem_cons_self _ _), List.mem_cons_self _ _, ?_⟩
      left
      refine ⟨rfl, ?_⟩
      cases hv : evalOrInf f r with
      | none => rw [hv] at h1; exact absurd h1 (by simp [fvalIsZero])
      | some v =>
        rw [hv] at h1
        simp only [fvalIsZero, decide_eq_true_eq] at h1
        rw [h1]
    · rw [Bool.not_eq_true] at h1
      rw [h1] at h
      simp only [Bool.false_eq_true, if_false] at h
      by_cases h2 : specOppositeSigns (evalOrInf f pr) (evalOrInf f r) = true
      · rw [h2] at h
        simp only [if_true, Option.some.injEq, Prod.mk.injEq] at h
        obtain ⟨ha, hb⟩ := h
        subst ha
        subst hb
        exact ⟨List.mem_cons_self _ _, List.mem_cons_self _ _, Or.inr ⟨hlt, h2⟩⟩
      · rw [Bool.not_eq_true] at h2
        rw [h2] at h
        simp only [Bool.false_eq_true, if_false] at h
        obtain ⟨hma, hmb, hrest⟩ := ih r a b hchain' h
        exact ⟨List.mem_cons_of_mem _ hma, List.mem_cons_of_mem _ hmb, hrest⟩

lemma chain_samples : ∀ (n i : ℕ),
    List.Chain (· < ·) (specSample i) ((List.range n).map (fun j => specSample (i + 1 + j))) := by
  intro n
  induction n with
  | zero => intro i; simp
  | succ n ih =>
    intro i
    rw [range_map_sample_succ]
    exact List.Chain.cons (specSample_lt_succ i) (by
      have h := ih (i + 1)
      simpa using h)

lemma mem_samples_ge (n i : ℕ) (x : ℚ) :
    x ∈ (List.range n).map (fun j => specSample (i + j)) → scanMin ≤ x := by
  intro hx
  rcases List.mem_map.mp hx with ⟨j, _, rfl⟩
  exact scanMin_le_specSample _

lemma evalOrInf_eq_some (f : ℚ → Exc ℚ) (r : ℚ) (v : ℚ) :
    evalOrInf f r = some v ↔ f r = .ok v := by
  rw [evalOrInf]
  cases f r <;> simp

/-- Structure of a bracket returned by the scan: both endpoints lie at or
above `scan_min`; a degenerate bracket is a sample where the valuation
returned exactly zero; a proper bracket is an increasing pair whose
valuations have strictly opposite signs (with the sentinel counting as
positive). -/
lemma scanBracket_sound (f : ℚ → Exc ℚ) (lo hi : ℚ)
    (h : scanBracket f = some (lo, hi)) :
    scanMin ≤ lo ∧ scanMin ≤ hi ∧
      ((lo = hi ∧ f lo = .ok 0) ∨
        (lo < hi ∧ specOppositeSigns (evalOrInf f lo) (evalOrInf f hi) = true)) := by
  rw [scanBracket_eq_specScan, specScan, specSamples_eq_cons] at h
  replace h : (if fvalIsZero (evalOrInf f (specSample 0)) then some (specSample 0, specSample 0)
      else specAux f (specSample 0)
        ((List.range nSteps).map (fun j => specSample (0 + 1 + j)))) = some (lo, hi) := h
  by_cases h0 : fvalIsZero (evalOrInf f (specSample 0)) = true
  · rw [h0] at h
    simp only [if_true, Option.some.injEq, Prod.mk.injEq] at h
    obtain ⟨hlo, hhi⟩ := h
    subst hlo
    subst hhi
    refine ⟨scanMin_le_specSample 0, scanMin_le_specSample 0, Or.inl ⟨rfl, ?_⟩⟩
    cases hv : evalOrInf f (specSample 0) with
    | none => rw [hv] at h0; exact absurd h0 (by simp [fvalIsZero])
    | some v =>
      rw [hv] at h0
      simp only [fvalIsZero, decide_eq_true_eq] at h0
      rw [h0] at hv
      exact (evalOrInf_eq_some f _ 0).mp hv
  · rw [Bool.not_eq_true] at h0
    rw [h0] at h
    simp only [Bool.false_eq_true, if_false] at h
    obtain ⟨hma, hmb, hrest⟩ := specAux_sound f _ _ lo hi (chain_samples nSteps 0) h
    have htail : ∀ x : ℚ, x ∈ (List.range nSteps).map (fun j => specSample (0 + 1 + j)) →
        scanMin ≤ x := by
      intro x hx
      apply mem_samples_ge nSteps 1 x
      simpa using hx
    have hlo : scanMin ≤ lo := by
      rcases List.mem_cons.mp hma with rfl | hma'
      · exact scanMin_le_specSample 0
      · exact htail lo hma'
    refine ⟨hlo, htail hi hmb, ?_⟩
    rcases hrest with ⟨heq, hz⟩ | ⟨hlt, hop⟩
    · exact Or.inl ⟨heq, (evalOrInf_eq_some f lo 0).mp hz⟩
    · exact Or.inr ⟨hlt, hop⟩

lemma xirr_unfold (pw : ℚ → ℚ → Exc ℚ) (newton : NewtonFn) (brentq : BrentqFn)
    (cf : List (ℤ × ℚ)) (guess tol : ℚ) (maxiter : ℕ) (dc : ℚ)
    (times amounts : List ℚ) (rt ed : ℤ)
    (hy : _year_fractions cf dc = .ok (times, amounts, rt, ed)) :
    xirr pw newton brentq cf guess tol maxiter dc =
      if !(amounts.any fun a => decide (0 < a)) || !(amounts.any fun a => decide (a < 0)) then
        .ok none
      else
        match newton (fun r => xnpv pw r times amounts)
            (fun r => _dxnpv_dr pw r times amounts) guess tol maxiter with
        | .ok irr =>
          if -1 < irr then .ok (some irr)
          else .ok (scanAndSolve brentq (fun r => xnpv pw r times amounts) tol)
        | .error e =>
          if catchableNewton e then
            .ok (scanAndSolve brentq (fun r => xnpv pw r times amounts) tol)
          else .error e := by
  rw [xirr, hy]
  rfl

lemma scanAndSolve_some (brentq : BrentqFn) (f : ℚ → Exc ℚ) (tol s : ℚ)
    (h : scanAndSolve brentq f tol = some s) :
    scanBracket f = some (s, s) ∨
      ∃ lo hi, scanBracket f = some (lo, hi) ∧ lo ≠ hi ∧ brentq f lo hi tol = .ok s := by
  rw [scanAndSolve] at h
  cases hb : scanBracket f with
  | none => rw [hb] at h; exact absurd h (by simp [brentqStage])
  | some p =>
    obtain ⟨lo, hi⟩ := p
    rw [hb] at h
    simp only [brentqStage] at h
    by_cases he : lo = hi
    · subst he
      rw [if_pos rfl] at h
      rw [Option.some.injEq] at h
      subst h
      exact Or.inl rfl
    · rw [if_neg he] at h
      cases hq : brentq f lo hi tol with
      | ok irr =>
        rw [hq] at h
        rw [Option.some.injEq] at h
        subst h
        exact Or.inr ⟨lo, hi, rfl, he, hq⟩
      | error e => rw [hq] at h; exact absurd h (by simp)

lemma foldlM_pw_sum (pw : ℚ → ℚ → Exc ℚ) (pt : ℚ → ℚ → ℚ)
    (hpw : ∀ b e, pw b e = .ok (pt b e)) (hnz : ∀ b e, pt b e ≠ 0)
    (base : ℚ) (ex nu : ℚ × ℚ → ℚ) :
    ∀ (l : List (ℚ × ℚ)) (acc : ℚ),
      l.foldlM (fun acc ta => do
          let d ← pw base (ex ta)
          if d = 0 then Except.error PyErr.zeroDivisionError
          else pure (acc + nu ta / d)) acc
        = .ok (acc + (l.map (fun ta => nu ta / pt base (ex ta))).sum) := by
  intro l
  induction l with
  | nil =>
    intro acc
    simp only [List.foldlM_nil, List.map_nil, List.sum_nil, add_zero]
    rfl
  | cons ta rest ih =>
    intro acc
    rw [List.foldlM_cons, hpw base (ex ta)]
    show (if pt base (ex ta) = 0 then Except.error PyErr.zeroDivisionError
        else pure (acc + nu ta / pt base (ex ta))) >>= _ = _
    rw [if_neg (hnz base (ex ta))]
    show List.foldlM _ (acc + nu ta / pt base (ex ta)) rest = _
    rw [ih (acc + nu ta / pt base (ex ta))]
    simp only [List.map_cons, List.sum_cons]
    rw [add_assoc]

lemma zip_map_sum_eq_range_sum (g : ℚ × ℚ → ℚ) :
    ∀ (ts as : List ℚ),
      ((ts.zip as).map g).sum =
        ∑ i ∈ Finset.range (min ts.length as.length), g (ts.getD i 0, as.getD i 0) := by
  intro ts
  induction ts with
  | nil => intro as; simp
  | cons t ts ih =>
    intro as
    cases as with
    | nil => simp
    | cons a as =>
      simp only [List.zip_cons_cons, List.map_cons, List.sum_cons, List.length_cons]
      rw [Nat.succ_min_succ, Finset.sum_range_succ']
      simp only [List.getD_cons_succ, List.getD_cons_zero]
      rw [ih as]
      ring

/-- C1 counterexample: on the series [(day 10, 5), (day 0, -5)] (entry 0 is
not the earliest) with the default day count 365.25 = 1461/4, the time
normalizer returns times [0, -40/1461], which are not the min-relative times
[40/1461, 0] the claim prescribes, and the second returned time is negative,
contradicting the claimed non-negativity. -/
theorem C1_counterexample :
    _year_fractions [((10:ℤ), (5:ℚ)), ((0:ℤ), (-5:ℚ))] (1461/4)
        = .ok ([0, -40/1461], [5, -5], 0, 10) ∧
      ([0, (-40/1461 : ℚ)] ≠ [40/1461, 0]) ∧
      (-40/1461 : ℚ) < 0 := by
  refine ⟨by with_unfolding_all rfl, ?_, by norm_num⟩
  intro h
  rw [List.cons.injEq] at h
  exact absurd h.1 (by norm_num)

/-- C1 (amended): for every non-empty cash-flow series and positive day
count, the time normalizer returns times relative to the *first* entry's
date, time[i] = (date[i] - date[0]).days / day_count; hence time[0] = 0, and
the times are all non-negative when the first entry carries the earliest
date (but not in general, as the counterexample shows): the code does treat
the first entry as the start. -/
theorem C1_times_relative_to_first_entry (d0 : ℤ) (a0 : ℚ) (rest : List (ℤ × ℚ))
    (dc : ℚ) (hdc : 0 < dc) :
    (∃ rt ed, _year_fractions ((d0, a0) :: rest) dc =
        .ok ((((d0, a0) :: rest).map fun p => ((p.1 - d0 : ℤ) : ℚ) / dc),
             ((d0, a0) :: rest).map Prod.snd, rt, ed)) ∧
    (((d0, a0) :: rest).map fun p => ((p.1 - d0 : ℤ) : ℚ) / dc).head? = some 0 ∧
    ((∀ p ∈ rest, d0 ≤ p.1) →
      ∀ t ∈ ((d0, a0) :: rest).map fun p => ((p.1 - d0 : ℤ) : ℚ) / dc, 0 ≤ t) := by
  refine ⟨⟨((((d0, a0) :: rest).map Prod.fst).foldl max d0) - d0,
      (((d0, a0) :: rest).map Prod.fst).foldl max d0, ?_⟩, ?_, ?_⟩
  · show (if dc = 0 then Except.error PyErr.zeroDivisionError else _) = _
    rw [if_neg (ne_of_gt hdc)]
  · simp
  · intro hmin t ht
    rcases List.mem_map.mp ht with ⟨p, hp, rfl⟩
    rcases List.mem_cons.mp hp with rfl | hp'
    · simp
    · apply div_nonneg _ (le_of_lt hdc)
      have h0 : (0 : ℤ) ≤ p.1 - d0 := by
        have := hmin p hp'
        omega
      exact_mod_cast h0

theorem C1_witness :
    (∃ rt ed, _year_fractions [((0:ℤ), (1:ℚ)), ((5:ℤ), (-2:ℚ))] (1461/4) =
        .ok (([((0:ℤ), (1:ℚ)), ((5:ℤ), (-2:ℚ))].map
              fun p => ((p.1 - 0 : ℤ) : ℚ) / (1461/4)),
             [((0:ℤ), (1:ℚ)), ((5:ℤ), (-2:ℚ))].map Prod.snd, rt, ed)) ∧
    (∀ t ∈ [((0:ℤ), (1:ℚ)), ((5:ℤ), (-2:ℚ))].map
        fun p => ((p.1 - 0 : ℤ) : ℚ) / (1461/4), 0 ≤ t) :=
  ⟨(C1_times_relative_to_first_entry 0 1 [(5, -2)] (1461/4) (by norm_num)).1,
   (C1_times_relative_to_first_entry 0 1 [(5, -2)] (1461/4) (by norm_num)).2.2
     (by norm_num)⟩

/-- C8 counterexample: on the empty collection the time normalizer raises
the generic `IndexError` (the subscript `cashflows[0]` fails before any
check), which is not the spec's tagged `EmptyInput` failure kind. -/
theorem C8_counterexample :
    _year_fractions ([] : List (ℤ × ℚ)) (1461/4) = .error .indexError ∧
      (Except.error PyErr.indexError : Exc (List ℚ × List ℚ × ℤ × ℤ)) ≠
        .error .emptyInput := by
  refine ⟨rfl, ?_⟩
  intro h
  rw [Except.error.injEq] at h
  exact PyErr.noConfusion h

/-- C8 (amended): on an empty collection the time normalizer — and through
it the whole core solve `xirr`, whose `_year_fractions` call sits outside
every `try` block — raises the generic `IndexError` rather than any tagged
`EmptyInput` failure kind; the emptiness check lives only in the
out-of-scope loader `load_cashflows`, which raises a plain `ValueError`. -/
theorem C8_empty_input_generic_fault (pw : ℚ → ℚ → Exc ℚ) (newton : NewtonFn)
    (brentq : BrentqFn) (guess tol : ℚ) (maxiter : ℕ) (dc : ℚ) :
    _year_fractions [] dc = .error .indexError ∧
      xirr pw newton brentq [] guess tol maxiter dc = .error .indexError :=
  ⟨rfl, rfl⟩

/-- C3: for every non-empty cash-flow series (with a valid, non-zero day
count) whose amounts are all non-positive or all non-negative, the
orchestrator returns `None` immediately; since the result is the same for
*every* `pw`, `newton` and `brentq`, neither the valuation, the Newton
solver, the bracket scanner nor the bracketed solver is consulted. -/
theorem C3_same_sign_no_solution (pw : ℚ → ℚ → Exc ℚ) (newton : NewtonFn)
    (brentq : BrentqFn) (cf : List (ℤ × ℚ)) (guess tol : ℚ) (maxiter : ℕ)
    (dc : ℚ) (hne : cf ≠ []) (hdc : dc ≠ 0)
    (hsign : (∀ a ∈ cf.map Prod.snd, a ≤ 0) ∨ (∀ a ∈ cf.map Prod.snd, 0 ≤ a)) :
    xirr pw newton brentq cf guess tol maxiter dc = .ok none := by
  obtain ⟨⟨d0, a0⟩, rest, rfl⟩ : ∃ p rest, cf = p :: rest := by
    cases cf with
    | nil => exact absurd rfl hne
    | cons p rest => exact ⟨p, rest, rfl⟩
  have hy : _year_fractions ((d0, a0) :: rest) dc =
      .ok (((d0, a0) :: rest).map (fun p => ((p.1 - d0 : ℤ) : ℚ) / dc),
        ((d0, a0) :: rest).map Prod.snd,
        ((((d0, a0) :: rest).map Prod.fst).foldl max d0) - d0,
        (((d0, a0) :: rest).map Prod.fst).foldl max d0) := by
    show (if dc = 0 then Except.error PyErr.zeroDivisionError else _) = _
    rw [if_neg hdc]
  rw [xirr_unfold pw newton brentq _ guess tol maxiter dc _ _ _ _ hy]
  have hcond : ((!(((d0, a0) :: rest).map Prod.snd).any fun a => decide (0 < a)) ||
      (!(((d0, a0) :: rest).map Prod.snd).any fun a => decide (a < 0))) = true := by
    rcases hsign with hall | hall
    · apply Bool.or_eq_true_iff.mpr
      left
      rw [Bool.not_eq_true']
      rw [List.any_eq_false]
      intro a ha
      simp only [decide_eq_true_eq]
      exact not_lt.mpr (hall a ha)
    · apply Bool.or_eq_true_iff.mpr
      right
      rw [Bool.not_eq_true']
      rw [List.any_eq_false]
      intro a ha
      simp only [decide_eq_true_eq]
      exact not_lt.mpr (hall a ha)
  rw [if_pos hcond]

theorem C3_witness :
    xirr (fun _ _ => .ok 1) (fun _ _ _ _ _ => .ok 0) (fun _ _ _ _ => .ok 0)
      [((0:ℤ), (1:ℚ)), ((5:ℤ), (2:ℚ))] (1/20) (1/1000000000) 100 (1461/4) = .ok none :=
  C3_same_sign_no_solution _ _ _ _ _ _ _ _ (by simp) (by norm_num)
    (Or.inr (by norm_num))

/-- C4: when the power operation is total and non-zero (ideal real
arithmetic, no overflow or underflow), the valuation returns exactly
the indexed sum of amounts[i] / (1+rate)^times[i] and the derivative exactly
the indexed sum of -times[i]*amounts[i] / (1+rate)^(times[i]+1), for every
rate > -1 and arbitrary (also negative or zero) times and amounts; for every
rate <= -1 both raise `ValueError` (the code's InvalidDomain) without
evaluating anything; and a zero time contributes the amount itself. -/
theorem C4_valuation_formulas (pw : ℚ → ℚ → Exc ℚ) (pt : ℚ → ℚ → ℚ)
    (hpw : ∀ b e, pw b e = .ok (pt b e)) (hnz : ∀ b e, pt b e ≠ 0)
    (rate : ℚ) (times amounts : List ℚ) :
    (rate ≤ -1 →
      xnpv pw rate times amounts = .error .valueError ∧
      _dxnpv_dr pw rate times amounts = .error .valueError) ∧
    (-1 < rate →
      xnpv pw rate times amounts =
        .ok (∑ i ∈ Finset.range (min times.length amounts.length),
          amounts.getD i 0 / pt (1 + rate) (times.getD i 0)) ∧
      _dxnpv_dr pw rate times amounts =
        .ok (∑ i ∈ Finset.range (min times.length amounts.length),
          -(times.getD i 0) * amounts.getD i 0 / pt (1 + rate) (times.getD i 0 + 1))) ∧
    (-1 < rate → pt (1 + rate) 0 = 1 → ∀ a : ℚ, xnpv pw rate [0] [a] = .ok a) := by
  have hxnpv : -1 < rate → xnpv pw rate times amounts =
      .ok (∑ i ∈ Finset.range (min times.length amounts.length),
        amounts.getD i 0 / pt (1 + rate) (times.getD i 0)) := by
    intro h
    calc xnpv pw rate times amounts
        = .ok (0 + ((times.zip amounts).map
            (fun ta => ta.2 / pt (1 + rate) ta.1)).sum) := by
          rw [xnpv, if_neg (not_le.mpr h)]
          exact foldlM_pw_sum pw pt hpw hnz (1 + rate) (fun ta => ta.1)
            (fun ta => ta.2) _ 0
      _ = .ok (∑ i ∈ Finset.range (min times.length amounts.length),
            amounts.getD i 0 / pt (1 + rate) (times.getD i 0)) := by
          rw [zero_add,
            zip_map_sum_eq_range_sum (fun ta => ta.2 / pt (1 + rate) ta.1) times amounts]
  refine ⟨?_, ?_, ?_⟩
  · intro h
    constructor
    · rw [xnpv, if_pos h]
    · rw [_dxnpv_dr, if_pos h]
  · intro h
    refine ⟨hxnpv h, ?_⟩
    calc _dxnpv_dr pw rate times amounts
        = .ok (0 + ((times.zip amounts).map
            (fun ta => -ta.1 * ta.2 / pt (1 + rate) (ta.1 + 1))).sum) := by
          rw [_dxnpv_dr, if_neg (not_le.mpr h)]
          exact foldlM_pw_sum pw pt hpw hnz (1 + rate) (fun ta => ta.1 + 1)
            (fun ta => -ta.1 * ta.2) _ 0
      _ = .ok (∑ i ∈ Finset.range (min times.length amounts.length),
            -(times.getD i 0) * amounts.getD i 0 / pt (1 + rate) (times.getD i 0 + 1)) := by
          rw [zero_add, zip_map_sum_eq_range_sum
            (fun ta => -ta.1 * ta.2 / pt (1 + rate) (ta.1 + 1)) times amounts]
  · intro h h0 a
    have := hxnpv h
    rw [xnpv, if_neg (not_le.mpr h)]
    have h1 := foldlM_pw_sum pw pt hpw hnz (1 + rate) (fun ta => ta.1)
      (fun ta => ta.2) [((0:ℚ), a)] 0
    have hz : (([0] : List ℚ).zip [a]) = [((0:ℚ), a)] := rfl
    rw [hz, h1]
    simp only [List.map_cons, List.map_nil, List.sum_cons, List.sum_nil]
    rw [h0]
    norm_num

theorem C4_witness :
    xnpv (fun _ _ => Except.ok 1) 0 [0, 2] [5, 7] =
      .ok (∑ i ∈ Finset.range (min ([0, 2] : List ℚ).length ([5, 7] : List ℚ).length),
        ([5, 7] : List ℚ).getD i 0 / (1 : ℚ)) :=
  ((C4_valuation_formulas (fun _ _ => .ok 1) (fun _ _ => 1) (fun _ _ => rfl)
      (fun _ _ => one_ne_zero) 0 [0, 2] [5, 7]).2.1 (by norm_num)).1

/-- C2: whenever the orchestrator reports a success rate r — under the
contracts the specification assigns to the external solvers (§4.3: a Newton
success has residual below the tolerance; §4.5: a bracketed-solver success
lies within its bracket and meets the tolerance) — the rate satisfies
|value(r)| < tolerance and r > -1: the Newton path checks r > -1
explicitly, a degenerate scan bracket has residual exactly zero, and the
scan only ever produces endpoints at or above scan_min = -0.999999 > -1. -/
theorem C2_success_invariant (pw : ℚ → ℚ → Exc ℚ) (newton : NewtonFn)
    (brentq : BrentqFn) (cf : List (ℤ × ℚ)) (guess tol : ℚ) (maxiter : ℕ)
    (dc : ℚ) (times amounts : List ℚ) (rt ed : ℤ) (r : ℚ)
    (hy : _year_fractions cf dc = .ok (times, amounts, rt, ed))
    (htol : 0 < tol)
    (hn : ∀ s, newton (fun x => xnpv pw x times amounts)
        (fun x => _dxnpv_dr pw x times amounts) guess tol maxiter = .ok s →
        ∃ v, xnpv pw s times amounts = .ok v ∧ |v| < tol)
    (hbq : ∀ lo hi s, brentq (fun x => xnpv pw x times amounts) lo hi tol = .ok s →
        (lo ≤ s ∧ s ≤ hi) ∧ ∃ v, xnpv pw s times amounts = .ok v ∧ |v| < tol)
    (hx : xirr pw newton brentq cf guess tol maxiter dc = .ok (some r)) :
    (∃ v, xnpv pw r times amounts = .ok v ∧ |v| < tol) ∧ -1 < r := by
  have hfall : scanAndSolve brentq (fun x => xnpv pw x times amounts) tol = some r →
      (∃ v, xnpv pw r times amounts = .ok v ∧ |v| < tol) ∧ -1 < r := by
    intro hs
    rcases scanAndSolve_some _ _ _ _ hs with hdeg | ⟨lo, hi, hscan, hne, hq⟩
    · obtain ⟨hlo, _, hcase⟩ := scanBracket_sound _ _ _ hdeg
      rcases hcase with ⟨_, hz⟩ | ⟨hlt, _⟩
      · exact ⟨⟨0, hz, by rwa [abs_zero]⟩, lt_of_lt_of_le neg_one_lt_scanMin hlo⟩
      · exact absurd hlt (lt_irrefl r)
    · obtain ⟨hlo, _, _⟩ := scanBracket_sound _ _ _ hscan
      obtain ⟨⟨hls, _⟩, hres⟩ := hbq lo hi r hq
      exact ⟨hres, lt_of_lt_of_le neg_one_lt_scanMin (le_trans hlo hls)⟩
  rw [xirr_unfold pw newton brentq cf guess tol maxiter dc times amounts rt ed hy] at hx
  by_cases hc : ((!amounts.any fun a => decide (0 < a)) ||
      (!amounts.any fun a => decide (a < 0))) = true
  · rw [if_pos hc] at hx
    rw [Except.ok.injEq] at hx
    exact absurd hx (by simp)
  · rw [if_neg hc] at hx
    cases hnew : newton (fun x => xnpv pw x times amounts)
        (fun x => _dxnpv_dr pw x times amounts) guess tol maxiter with
    | ok irr =>
      rw [hnew] at hx
      replace hx : (if -1 < irr then Except.ok (some irr)
          else Except.ok (scanAndSolve brentq (fun x => xnpv pw x times amounts) tol))
          = (Except.ok (some r) : Exc (Option ℚ)) := hx
      by_cases hirr : -1 < irr
      · rw [if_pos hirr] at hx
        rw [Except.ok.injEq, Option.some.injEq] at hx
        subst hx
        exact ⟨hn irr hnew, hirr⟩
      · rw [if_neg hirr] at hx
        rw [Except.ok.injEq] at hx
        exact hfall hx
    | error e =>
      rw [hnew] at hx
      replace hx : (if catchableNewton e = true
          then Except.ok (scanAndSolve brentq (fun x => xnpv pw x times amounts) tol)
          else Except.error e) = (Except.ok (some r) : Exc (Option ℚ)) := hx
      by_cases hcat : catchableNewton e = true
      · rw [if_pos hcat] at hx
        rw [Except.ok.injEq] at hx
        exact hfall hx
      · rw [if_neg hcat] at hx
        exact absurd hx (by simp)

theorem C2_witness :
    (∃ v, xnpv (fun _ _ => .ok 1) (1/2) [0, 4/1461] [-1, 1] = .ok v ∧
      |v| < (1/1000000000 : ℚ)) ∧ (-1 : ℚ) < 1/2 := by
  apply C2_success_invariant (fun _ _ => .ok 1) (fun _ _ _ _ _ => .ok (1/2))
    (fun _ _ _ _ => .error .valueError) [((0:ℤ), (-1:ℚ)), ((1:ℤ), (1:ℚ))]
    (1/20) (1/1000000000) 100 (1461/4) [0, 4/1461] [-1, 1] 1 1 (1/2)
  · with_unfolding_all rfl
  · norm_num
  · intro s hs
    rw [Except.ok.injEq] at hs
    subst hs
    exact ⟨0, by with_unfolding_all rfl, by norm_num⟩
  · intro lo hi s h
    exact absurd h (by simp)
  · with_unfolding_all rfl

lemma xirr_fallback (pw : ℚ → ℚ → Exc ℚ) (newton : NewtonFn) (brentq : BrentqFn)
    (cf : List (ℤ × ℚ)) (guess tol : ℚ) (maxiter : ℕ) (dc : ℚ)
    (times amounts : List ℚ) (rt ed : ℤ)
    (hy : _year_fractions cf dc = .ok (times, amounts, rt, ed))
    (hpos : (amounts.any fun a => decide (0 < a)) = true)
    (hneg : (amounts.any fun a => decide (a < 0)) = true)
    (hfail : (∃ e, newton (fun x => xnpv pw x times amounts)
        (fun x => _dxnpv_dr pw x times amounts) guess tol maxiter = .error e ∧
        catchableNewton e = true) ∨
      (∃ irr, newton (fun x => xnpv pw x times amounts)
        (fun x => _dxnpv_dr pw x times amounts) guess tol maxiter = .ok irr ∧
        ¬(-1 < irr))) :
    xirr pw newton brentq cf guess tol maxiter dc =
      .ok (scanAndSolve brentq (fun x => xnpv pw x times amounts) tol) := by
  rw [xirr_unfold pw newton brentq cf guess tol maxiter dc times amounts rt ed hy]
  rw [hpos, hneg]
  simp only [Bool.not_true, Bool.or_self, Bool.false_eq_true, if_false]
  rcases hfail with ⟨e, hne, hcat⟩ | ⟨irr, hnk, hirr⟩
  · rw [hne]
    show (if catchableNewton e = true
        then Except.ok (scanAndSolve brentq (fun x => xnpv pw x times amounts) tol)
        else Except.error e) = _
    rw [if_pos hcat]
  · rw [hnk]
    show (if -1 < irr then Except.ok (some irr)
        else Except.ok (scanAndSolve brentq (fun x => xnpv pw x times amounts) tol)) = _
    rw [if_neg hirr]

/-- C5: the bracket scan coincides, for every valuation closure, with its
specification: sweep the 201 samples scan_min + k*(scan_max - scan_min)/200
over [-0.999999, 10] left to right, treating a failed evaluation as the +inf
sentinel, and return the first degenerate bracket at an exactly-zero sample
or the first consecutive pair with strictly opposite signs; and when the
sweep finds neither (the scan returns no bracket) the orchestrator, having
reached the scan stage, returns None. -/
theorem C5_scanner_refines_spec :
    (∀ f : ℚ → Exc ℚ, scanBracket f = specScan f) ∧
    (∀ (pw : ℚ → ℚ → Exc ℚ) (newton : NewtonFn) (brentq : BrentqFn)
      (cf : List (ℤ × ℚ)) (guess tol : ℚ) (maxiter : ℕ) (dc : ℚ)
      (times amounts : List ℚ) (rt ed : ℤ),
      _year_fractions cf dc = .ok (times, amounts, rt, ed) →
      (amounts.any fun a => decide (0 < a)) = true →
      (amounts.any fun a => decide (a < 0)) = true →
      ((∃ e, newton (fun x => xnpv pw x times amounts)
          (fun x => _dxnpv_dr pw x times amounts) guess tol maxiter = .error e ∧
          catchableNewton e = true) ∨
        (∃ irr, newton (fun x => xnpv pw x times amounts)
          (fun x => _dxnpv_dr pw x times amounts) guess tol maxiter = .ok irr ∧
          ¬(-1 < irr))) →
      scanBracket (fun x => xnpv pw x times amounts) = none →
      xirr pw newton brentq cf guess tol maxiter dc = .ok none) := by
  constructor
  · exact scanBracket_eq_specScan
  · intro pw newton brentq cf guess tol maxiter dc times amounts rt ed hy hpos hneg hfail hscan
    rw [xirr_fallback pw newton brentq cf guess tol maxiter dc times amounts rt ed
      hy hpos hneg hfail]
    rw [scanAndSolve, hscan]
    rfl

set_option maxRecDepth 40000 in
theorem C5_witness :
    scanBracket (fun x => xnpv (fun _ _ => .ok 1) x [0, 4/1461] [-1, 2]) =
      specScan (fun x => xnpv (fun _ _ => .ok 1) x [0, 4/1461] [-1, 2]) ∧
    xirr (fun _ _ => .ok 1) (fun _ _ _ _ _ => .error .runtimeError)
      (fun _ _ _ _ => .error .valueError) [((0:ℤ), (-1:ℚ)), ((1:ℤ), (2:ℚ))]
      (1/20) (1/1000000000) 100 (1461/4) = .ok none := by
  constructor
  · exact C5_scanner_refines_spec.1 _
  · apply C5_scanner_refines_spec.2 (fun _ _ => .ok 1)
      (fun _ _ _ _ _ => .error .runtimeError) (fun _ _ _ _ => .error .valueError)
      [((0:ℤ), (-1:ℚ)), ((1:ℤ), (2:ℚ))] (1/20) (1/1000000000) 100 (1461/4)
      [0, 4/1461] [-1, 2] 1 1
    · with_unfolding_all rfl
    · with_unfolding_all rfl
    · with_unfolding_all rfl
    · exact Or.inl ⟨.runtimeError, rfl, rfl⟩
    · with_unfolding_all rfl

/-- C6: when the scan produces a degenerate bracket (low = high), the
orchestrator returns that sample rate directly — the result is the same for
*every* bracketed solver, so `brentq` is never consulted — and that rate is
one at which the valuation evaluated to exactly zero. -/
theorem C6_degenerate_bracket_direct (pw : ℚ → ℚ → Exc ℚ) (newton : NewtonFn)
    (cf : List (ℤ × ℚ)) (guess tol : ℚ) (maxiter : ℕ) (dc : ℚ)
    (times amounts : List ℚ) (rt ed : ℤ) (x : ℚ)
    (hy : _year_fractions cf dc = .ok (times, amounts, rt, ed))
    (hpos : (amounts.any fun a => decide (0 < a)) = true)
    (hneg : (amounts.any fun a => decide (a < 0)) = true)
    (hfail : (∃ e, newton (fun r => xnpv pw r times amounts)
        (fun r => _dxnpv_dr pw r times amounts) guess tol maxiter = .error e ∧
        catchableNewton e = true) ∨
      (∃ irr, newton (fun r => xnpv pw r times amounts)
        (fun r => _dxnpv_dr pw r times amounts) guess tol maxiter = .ok irr ∧
        ¬(-1 < irr)))
    (hscan : scanBracket (fun r => xnpv pw r times amounts) = some (x, x)) :
    (∀ brentq : BrentqFn,
      xirr pw newton brentq cf guess tol maxiter dc = .ok (some x)) ∧
    xnpv pw x times amounts = .ok 0 := by
  constructor
  · intro brentq
    rw [xirr_fallback pw newton brentq cf guess tol maxiter dc times amounts rt ed
      hy hpos hneg hfail]
    rw [scanAndSolve, hscan]
    show Except.ok (if x = x then some x
      else match brentq (fun r => xnpv pw r times amounts) x x tol with
        | .ok irr => some irr
        | .error _ => none) = _
    rw [if_pos rfl]
  · obtain ⟨_, _, hcase⟩ := scanBracket_sound _ _ _ hscan
    rcases hcase with ⟨_, hz⟩ | ⟨hlt, _⟩
    · exact hz
    · exact absurd hlt (lt_irrefl x)

theorem C6_witness :
    (∀ brentq : BrentqFn,
      xirr (fun _ _ => .ok 1) (fun _ _ _ _ _ => .error .overflowError) brentq
        [((0:ℤ), (-1:ℚ)), ((1:ℤ), (1:ℚ))] (1/20) (1/1000000000) 100 (1461/4) =
      .ok (some scanMin)) ∧
    xnpv (fun _ _ => .ok 1) scanMin [0, 4/1461] [-1, 1] = .ok 0 :=
  C6_degenerate_bracket_direct (fun _ _ => .ok 1)
    (fun _ _ _ _ _ => .error .overflowError) [((0:ℤ), (-1:ℚ)), ((1:ℤ), (1:ℚ))]
    (1/20) (1/1000000000) 100 (1461/4) [0, 4/1461] [-1, 1] 1 1 scanMin
    (by with_unfolding_all rfl) (by with_unfolding_all rfl)
    (by with_unfolding_all rfl) (Or.inl ⟨.overflowError, rfl, rfl⟩)
    (by with_unfolding_all rfl)

/-- C7: the Newton stage's converged rate is returned only when it exceeds
-1: a Newton success at or below -1 is discarded and control flows to the
scan, exactly as when a mid-search iterate at or below -1 raises the
domain `ValueError` inside the valuation — the orchestrator's result is the
fallback chain's result (an `ok`, never a propagated exception); and, given
a bracketed solver that stays inside its bracket, no rate at or below -1 is
ever reported. -/
theorem C7_newton_domain_fallthrough (pw : ℚ → ℚ → Exc ℚ) (newton : NewtonFn)
    (brentq : BrentqFn) (cf : List (ℤ × ℚ)) (guess tol : ℚ) (maxiter : ℕ)
    (dc : ℚ) (times amounts : List ℚ) (rt ed : ℤ)
    (hy : _year_fractions cf dc = .ok (times, amounts, rt, ed))
    (hpos : (amounts.any fun a => decide (0 < a)) = true)
    (hneg : (amounts.any fun a => decide (a < 0)) = true)
    (hfail : newton (fun r => xnpv pw r times amounts)
        (fun r => _dxnpv_dr pw r times amounts) guess tol maxiter =
          .error .valueError ∨
      (∃ irr, newton (fun r => xnpv pw r times amounts)
        (fun r => _dxnpv_dr pw r times amounts) guess tol maxiter = .ok irr ∧
        irr ≤ -1)) :
    xirr pw newton brentq cf guess tol maxiter dc =
      .ok (scanAndSolve brentq (fun r => xnpv pw r times amounts) tol) ∧
    ((∀ lo hi s, brentq (fun r => xnpv pw r times amounts) lo hi tol = .ok s →
        lo ≤ s) →
      ∀ s, xirr pw newton brentq cf guess tol maxiter dc = .ok (some s) →
        -1 < s) := by
  have hfail' : (∃ e, newton (fun r => xnpv pw r times amounts)
      (fun r => _dxnpv_dr pw r times amounts) guess tol maxiter = .error e ∧
      catchableNewton e = true) ∨
    (∃ irr, newton (fun r => xnpv pw r times amounts)
      (fun r => _dxnpv_dr pw r times amounts) guess tol maxiter = .ok irr ∧
      ¬(-1 < irr)) := by
    rcases hfail with h | ⟨irr, h, hle⟩
    · exact Or.inl ⟨.valueError, h, rfl⟩
    · exact Or.inr ⟨irr, h, not_lt.mpr hle⟩
  have hxf := xirr_fallback pw newton brentq cf guess tol maxiter dc times amounts
    rt ed hy hpos hneg hfail'
  refine ⟨hxf, ?_⟩
  intro hbq s hs
  rw [hxf, Except.ok.injEq] at hs
  rcases scanAndSolve_some _ _ _ _ hs with hdeg | ⟨lo, hi, hscan, _, hq⟩
  · obtain ⟨hlo, _, _⟩ := scanBracket_sound _ _ _ hdeg
    exact lt_of_lt_of_le neg_one_lt_scanMin hlo
  · obtain ⟨hlo, _, _⟩ := scanBracket_sound _ _ _ hscan
    exact lt_of_lt_of_le neg_one_lt_scanMin (le_trans hlo (hbq lo hi s hq))

theorem C7_witness :
    xirr (fun _ _ => .ok 1) (fun _ _ _ _ _ => .error .valueError)
      (fun _ _ _ _ => .error .valueError) [((0:ℤ), (-1:ℚ)), ((1:ℤ), (2:ℚ))]
      (-9999999/10000000) (1/1000000000) 100 (1461/4) =
    .ok (scanAndSolve (fun _ _ _ _ => .error .valueError)
      (fun r => xnpv (fun _ _ => .ok 1) r [0, 4/1461] [-1, 2]) (1/1000000000)) ∧
    ((∀ lo _b s : ℚ, (Except.error PyErr.valueError : Exc ℚ) = .ok s → lo ≤ s) →
      ∀ s, xirr (fun _ _ => .ok 1) (fun _ _ _ _ _ => .error .valueError)
        (fun _ _ _ _ => .error .valueError) [((0:ℤ), (-1:ℚ)), ((1:ℤ), (2:ℚ))]
        (-9999999/10000000) (1/1000000000) 100 (1461/4) = .ok (some s) → -1 < s) :=
  C7_newton_domain_fallthrough (fun _ _ => .ok 1) (fun _ _ _ _ _ => .error .valueError)
    (fun _ _ _ _ => .error .valueError) [((0:ℤ), (-1:ℚ)), ((1:ℤ), (2:ℚ))]
    (-9999999/10000000) (1/1000000000) 100 (1461/4) [0, 4/1461] [-1, 2] 1 1
    (by with_unfolding_all rfl) (by with_unfolding_all rfl)
    (by with_unfolding_all rfl) (Or.inl rfl)

/-- C9: once the run has reached the scan and a proper (non-degenerate)
bracket has been found, *any* failure of the bracketed solver — whatever
exception class it raises — is swallowed by the `try/except Exception` and
the orchestrator returns `None` instead of propagating it. -/
theorem C9_brentq_failure_no_solution (pw : ℚ → ℚ → Exc ℚ) (newton : NewtonFn)
    (brentq : BrentqFn) (cf : List (ℤ × ℚ)) (guess tol : ℚ) (maxiter : ℕ)
    (dc : ℚ) (times amounts : List ℚ) (rt ed : ℤ) (lo hi : ℚ) (e : PyErr)
    (hy : _year_fractions cf dc = .ok (times, amounts, rt, ed))
    (hpos : (amounts.any fun a => decide (0 < a)) = true)
    (hneg : (amounts.any fun a => decide (a < 0)) = true)
    (hfail : (∃ e', newton (fun r => xnpv pw r times amounts)
        (fun r => _dxnpv_dr pw r times amounts) guess tol maxiter = .error e' ∧
        catchableNewton e' = true) ∨
      (∃ irr, newton (fun r => xnpv pw r times amounts)
        (fun r => _dxnpv_dr pw r times amounts) guess tol maxiter = .ok irr ∧
        ¬(-1 < irr)))
    (hscan : scanBracket (fun r => xnpv pw r times amounts) = some (lo, hi))
    (hne : lo ≠ hi)
    (hq : brentq (fun r => xnpv pw r times amounts) lo hi tol = .error e) :
    xirr pw newton brentq cf guess tol maxiter dc = .ok none := by
  rw [xirr_fallback pw newton brentq cf guess tol maxiter dc times amounts rt ed
    hy hpos hneg hfail]
  rw [scanAndSolve, hscan]
  show Except.ok (if lo = hi then some lo
    else match brentq (fun r => xnpv pw r times amounts) lo hi tol with
      | .ok irr => some irr
      | .error _ => none) = _
  rw [if_neg hne, hq]

theorem C9_witness :
    xirr (fun b e => .ok (if e = 0 then 1 else b))
      (fun _ _ _ _ _ => .error .runtimeError) (fun _ _ _ _ => .error .runtimeError)
      [((0:ℤ), (-1:ℚ)), ((1:ℤ), (2:ℚ))] (1/20) (1/1000000000) 100 1 = .ok none :=
  C9_brentq_failure_no_solution (fun b e => .ok (if e = 0 then 1 else b))
    (fun _ _ _ _ _ => .error .runtimeError) (fun _ _ _ _ => .error .runtimeError)
    [((0:ℤ), (-1:ℚ)), ((1:ℤ), (2:ℚ))] (1/20) (1/1000000000) 100 1
    [0, 1] [-1, 2] 1 1 (specSample 36) (specSample 37) .runtimeError
    (by with_unfolding_all rfl) (by with_unfolding_all rfl)
    (by with_unfolding_all rfl) (Or.inl ⟨.runtimeError, rfl, rfl⟩)
    (by with_unfolding_all rfl) (ne_of_lt (specSample_lt_succ 36)) rfl

lemma specAux_trigger_from (f : ℚ → Exc ℚ) (k : ℕ)
    (hz : ∀ j, j ≤ k → fvalIsZero (evalOrInf f (specSample j)) = false)
    (hz1 : fvalIsZero (evalOrInf f (specSample (k + 1))) = false)
    (hp : ∀ j, j < k → specOppositeSigns (evalOrInf f (specSample j))
      (evalOrInf f (specSample (j + 1))) = false)
    (hpk : specOppositeSigns (evalOrInf f (specSample k))
      (evalOrInf f (specSample (k + 1))) = true) :
    ∀ (n i : ℕ), i ≤ k → k + 1 ≤ i + n →
      specAux f (specSample i) ((List.range n).map (fun j => specSample (i + 1 + j))) =
        some (specSample k, specSample (k + 1)) := by
  intro n
  induction n with
  | zero => intro i hik hkn; omega
  | succ n ih =>
    intro i hik hkn
    rw [range_map_sample_succ]
    rw [specAux]
    by_cases hik' : i = k
    · subst hik'
      rw [hz1]
      simp only [Bool.false_eq_true, if_false]
      rw [hpk]
      simp only [if_true]
    · have hlt : i < k := lt_of_le_of_ne hik hik'
      rw [hz (i + 1) (by omega)]
      simp only [Bool.false_eq_true, if_false]
      rw [hp i hlt]
      simp only [Bool.false_eq_true, if_false]
      exact ih (i + 1) (by omega) (by omega)

lemma scanBracket_trigger (f : ℚ → Exc ℚ) (k : ℕ) (hk : k + 1 ≤ nSteps)
    (hz : ∀ j, j ≤ k → fvalIsZero (evalOrInf f (specSample j)) = false)
    (hz1 : fvalIsZero (evalOrInf f (specSample (k + 1))) = false)
    (hp : ∀ j, j < k → specOppositeSigns (evalOrInf f (specSample j))
      (evalOrInf f (specSample (j + 1))) = false)
    (hpk : specOppositeSigns (evalOrInf f (specSample k))
      (evalOrInf f (specSample (k + 1))) = true) :
    scanBracket f = some (specSample k, specSample (k + 1)) := by
  rw [scanBracket_eq_specScan, specScan, specSamples_eq_cons]
  show (if fvalIsZero (evalOrInf f (specSample 0)) then some (specSample 0, specSample 0)
    else specAux f (specSample 0)
      ((List.range nSteps).map (fun j => specSample (0 + 1 + j)))) = _
  rw [hz 0 (Nat.zero_le k)]
  simp only [Bool.false_eq_true, if_false]
  exact specAux_trigger_from f k hz hz1 hp hpk nSteps 0 (Nat.zero_le k) (by omega)

/-- C10 (implicit): when the valuation fails at scan sample k (recorded as
the +inf sentinel) and returns a strictly negative finite value at sample
k+1, and no earlier sample triggered a zero or a sign-change, the scanner
reports the pair (sample k, sample k+1) as a bracket — the product test
`inf * negative < 0` fires — even though no genuine sign change was
observed; when the subsequent bracketed solve on that pair fails, the
orchestrator returns `None`. -/
theorem C10_sentinel_fake_bracket (pw : ℚ → ℚ → Exc ℚ) (newton : NewtonFn)
    (brentq : BrentqFn) (cf : List (ℤ × ℚ)) (guess tol : ℚ) (maxiter : ℕ)
    (dc : ℚ) (times amounts : List ℚ) (rt ed : ℤ) (k : ℕ) (v : ℚ) (e : PyErr)
    (hy : _year_fractions cf dc = .ok (times, amounts, rt, ed))
    (hpos : (amounts.any fun a => decide (0 < a)) = true)
    (hneg : (amounts.any fun a => decide (a < 0)) = true)
    (hfail : (∃ e', newton (fun r => xnpv pw r times amounts)
        (fun r => _dxnpv_dr pw r times amounts) guess tol maxiter = .error e' ∧
        catchableNewton e' = true) ∨
      (∃ irr, newton (fun r => xnpv pw r times amounts)
        (fun r => _dxnpv_dr pw r times amounts) guess tol maxiter = .ok irr ∧
        ¬(-1 < irr)))
    (hk : k + 1 ≤ nSteps)
    (hfk : evalOrInf (fun r => xnpv pw r times amounts) (specSample k) = none)
    (hvk : evalOrInf (fun r => xnpv pw r times amounts) (specSample (k + 1)) = some v)
    (hv : v < 0)
    (hz : ∀ j, j ≤ k →
      fvalIsZero (evalOrInf (fun r => xnpv pw r times amounts) (specSample j)) = false)
    (hp : ∀ j, j < k →
      specOppositeSigns (evalOrInf (fun r => xnpv pw r times amounts) (specSample j))
        (evalOrInf (fun r => xnpv pw r times amounts) (specSample (j + 1))) = false)
    (hq : brentq (fun r => xnpv pw r times amounts) (specSample k)
      (specSample (k + 1)) tol = .error e) :
    scanBracket (fun r => xnpv pw r times amounts) =
        some (specSample k, specSample (k + 1)) ∧
      fvalProdNeg (evalOrInf (fun r => xnpv pw r times amounts) (specSample k))
        (evalOrInf (fun r => xnpv pw r times amounts) (specSample (k + 1))) = true ∧
      xirr pw newton brentq cf guess tol maxiter dc = .ok none := by
  have hz1 : fvalIsZero (evalOrInf (fun r => xnpv pw r times amounts)
      (specSample (k + 1))) = false := by
    rw [hvk]
    simp only [fvalIsZero]
    exact decide_eq_false (ne_of_lt hv)
  have hpk : specOppositeSigns (evalOrInf (fun r => xnpv pw r times amounts) (specSample k))
      (evalOrInf (fun r => xnpv pw r times amounts) (specSample (k + 1))) = true := by
    rw [hfk, hvk]
    simp only [specOppositeSigns, fvalPos, fvalNeg, Bool.true_and, Bool.false_and,
      Bool.or_false]
    exact decide_eq_true hv
  have hscan := scanBracket_trigger (fun r => xnpv pw r times amounts) k hk hz hz1
    (by intro j hj; exact hp j hj) hpk
  refine ⟨hscan, ?_, ?_⟩
  · rw [hfk, hvk]
    simp only [fvalProdNeg]
    exact decide_eq_true hv
  · rw [xirr_fallback pw newton brentq cf guess tol maxiter dc times amounts rt ed
      hy hpos hneg hfail]
    rw [scanAndSolve, hscan]
    show Except.ok (if specSample k = specSample (k + 1) then some (specSample k)
      else match brentq (fun r => xnpv pw r times amounts)
          (specSample k) (specSample (k + 1)) tol with
        | .ok irr => some irr
        | .error _ => none) = _
    rw [if_neg (ne_of_lt (specSample_lt_succ k)), hq]

theorem C10_witness :
    scanBracket (fun r => xnpv (fun b e => .ok (if e = 0 then 1 else
        (if b < 1/2 then 0 else b))) r [0, 1] [-3, 1]) =
      some (specSample 9, specSample 10) ∧
    fvalProdNeg (evalOrInf (fun r => xnpv (fun b e => .ok (if e = 0 then 1 else
        (if b < 1/2 then 0 else b))) r [0, 1] [-3, 1]) (specSample 9))
      (evalOrInf (fun r => xnpv (fun b e => .ok (if e = 0 then 1 else
        (if b < 1/2 then 0 else b))) r [0, 1] [-3, 1]) (specSample 10)) = true ∧
    xirr (fun b e => .ok (if e = 0 then 1 else (if b < 1/2 then 0 else b)))
      (fun _ _ _ _ _ => .error .overflowError) (fun _ _ _ _ => .error .overflowError)
      [((0:ℤ), (-3:ℚ)), ((1:ℤ), (1:ℚ))] (1/20) (1/1000000000) 100 1 = .ok none :=
  C10_sentinel_fake_bracket
    (fun b e => .ok (if e = 0 then 1 else (if b < 1/2 then 0 else b)))
    (fun _ _ _ _ _ => .error .overflowError) (fun _ _ _ _ => .error .overflowError)
    [((0:ℤ), (-3:ℚ)), ((1:ℤ), (1:ℚ))] (1/20) (1/1000000000) 100 1
    [0, 1] [-3, 1] 1 1 9 (-13000057/11000019) .overflowError
    (by with_unfolding_all rfl) (by with_unfolding_all rfl)
    (by with_unfolding_all rfl) (Or.inl ⟨.overflowError, rfl, rfl⟩)
    (by norm_num [nSteps]) (by with_unfolding_all rfl) (by with_unfolding_all rfl)
    (by norm_num)
    (by intro j hj; interval_cases j <;> with_unfolding_all rfl)
    (by intro j hj; interval_cases j <;> with_unfolding_all rfl)
    rfl
